import Mathlib

/-!
# Verification of the library-simulation catalog core

Shallow embedding of the core data structures of `src/library.py`:
the immutable `Book` record, the ordered `BookCollection`, the
three-way `IndexDict` secondary index, and the `Library` facade that
composes the two.  Python dictionaries are modelled extensionally as
functions into `Option`, Python `set[Book]` as a duplicate-free list
(`set.add` inserts only when absent, `set.discard` erases the element),
and the two exception kinds (`KeyError` on a missed keyed lookup,
`IndexError` on popping from an empty list) as the explicit error
values `notFound` and `emptyCollection`.  Mutating methods become functions
returning the new state; a method that can raise returns the result
`Except` together with the state the Python object is left in when the
exception propagates (the source mutates in steps, so a late failure
can leave a partial mutation behind, and the embedding preserves that).
-/

/-- The common fields of the `Book` dataclass (`src/library.py`).  The
`PrintedBook`/`DigitalBook` variants only add display-oriented payload;
the collection and index code touches only these shared fields, and
record equality on them models the frozen dataclass equality. -/
structure Book where
  title : String
  author : String
  year : Int
  genre : String
  isbn : String
deriving DecidableEq

/-- The two error kinds of the core: `notFound` models Python's
`KeyError` raised by keyed lookups/removals, `emptyCollection` models
the `IndexError` raised by `pop_random` on an empty collection. -/
inductive LibError where
  | notFound
  | emptyCollection
deriving DecidableEq

/-- `BookCollection`: insertion-ordered list of books. -/
structure BookCollection where
  books : List Book
deriving DecidableEq

/-- `BookCollection.__contains__` resolved to an isbn key: true iff some
entry has that isbn. -/
def BookCollection.contains_isbn (c : BookCollection) (isbn : String) : Bool :=
  c.books.any (fun b => b.isbn == isbn)

/-- `BookCollection.add`: append at the end, no uniqueness check. -/
def BookCollection.add (c : BookCollection) (b : Book) : BookCollection :=
  ⟨c.books ++ [b]⟩

/-- `BookCollection.__add__`: start from a copy of the left collection and
append each book of the right one whose isbn is not yet present in the
accumulated result. -/
def BookCollection.concat (c other : BookCollection) : BookCollection :=
  other.books.foldl
    (fun combined b => if combined.contains_isbn b.isbn then combined else combined.add b)
    ⟨c.books⟩

/-- Helper for `BookCollection.remove`: delete the first entry whose isbn
matches, returning it and the remaining list, or `none` if no entry
matches. -/
def remove_first : List Book → String → Option (Book × List Book)
  | [], _ => none
  | b :: rest, isbn =>
    if b.isbn = isbn then some (b, rest)
    else
      match remove_first rest isbn with
      | some (r, rest') => some (r, b :: rest')
      | none => none

/-- `BookCollection.remove`: remove and return the first entry with the
given isbn; `KeyError` (`notFound`) if absent (the collection is then
unchanged). -/
def BookCollection.remove (c : BookCollection) (isbn : String) :
    Except LibError (Book × BookCollection) :=
  match remove_first c.books isbn with
  | some (b, rest) => .ok (b, ⟨rest⟩)
  | none => .error .notFound

/-- `BookCollection.pop_random`: `IndexError` (`emptyCollection`) on an
empty collection; otherwise remove and return the entry at the index the
injected random source produced.  `rng.randrange(len(books))` is modelled
by reducing the supplied random value modulo the length, which realises
exactly the values `randrange` can return. -/
def BookCollection.pop_random (c : BookCollection) (rnd : Nat) :
    Except LibError (Book × BookCollection) :=
  if h : c.books.length = 0 then .error .emptyCollection
  else
    have hlt : rnd % c.books.length < c.books.length :=
      Nat.mod_lt _ (Nat.pos_of_ne_zero h)
    .ok (c.books.get ⟨rnd % c.books.length, hlt⟩, ⟨c.books.eraseIdx (rnd % c.books.length)⟩)

/-- `str.lower` on a character: ASCII letters are lowered, everything
else kept (executable model of Python's case folding; the code only
compares equal-cased keys produced by this same function). -/
def char_lower (c : Char) : Char :=
  if 65 ≤ c.toNat ∧ c.toNat ≤ 90 then Char.ofNat (c.toNat + 32) else c

/-- `str.lower`: lower every character. -/
def str_lower (s : String) : String :=
  ⟨s.data.map char_lower⟩

/-- `set.add` on a bucket: a set never holds two equal elements, so the
book is appended only when absent. -/
def set_add (s : List Book) (b : Book) : List Book :=
  if b ∈ s then s else s ++ [b]

/-- `set.discard` on a bucket: delete the element when present. -/
def set_discard (s : List Book) (b : Book) : List Book :=
  s.erase b

/-- `IndexDict`: the three mappings, modelled extensionally.  `none`
means the key is absent from the Python dict, so an absent bucket is
distinguishable from an empty one. -/
structure IndexDict where
  by_isbn : String → Option Book
  by_author : String → Option (List Book)
  by_year : Int → Option (List Book)

/-- A fresh `IndexDict()`: all three dicts empty. -/
def IndexDict.empty : IndexDict :=
  ⟨fun _ => none, fun _ => none, fun _ => none⟩

/-- The author bucket as the set it denotes (`set()` default for an
absent key, as `setdefault`/`get` produce). -/
def IndexDict.author_bucket (d : IndexDict) (key : String) : List Book :=
  (d.by_author key).getD []

/-- The year bucket as the set it denotes. -/
def IndexDict.year_bucket (d : IndexDict) (y : Int) : List Book :=
  (d.by_year y).getD []

/-- `IndexDict.add`: last-write-wins insert into `by_isbn`, and insertion
of the book into the (possibly fresh) buckets keyed by the lowercased
author and by the year.  Nothing is ever removed from a bucket here. -/
def IndexDict.add (d : IndexDict) (b : Book) : IndexDict where
  by_isbn := fun k => if k = b.isbn then some b else d.by_isbn k
  by_author := fun a =>
    if a = str_lower b.author then some (set_add (d.author_bucket a) b) else d.by_author a
  by_year := fun y =>
    if y = b.year then some (set_add (d.year_bucket y) b) else d.by_year y

/-- `IndexDict.remove`: pop the book from `by_isbn` (`KeyError`/`notFound`
if the isbn is absent, the index then untouched); on success discard the
book from its author bucket and its year bucket, popping each bucket that
becomes empty, and return the removed book with the new state. -/
def IndexDict.remove (d : IndexDict) (isbn : String) :
    Except LibError Book × IndexDict :=
  match d.by_isbn isbn with
  | none => (.error .notFound, d)
  | some book =>
    let d1 : IndexDict :=
      { d with by_isbn := fun k => if k = isbn then none else d.by_isbn k }
    let akey := str_lower book.author
    let d2 : IndexDict :=
      match d1.by_author akey with
      | none => d1
      | some s =>
        let s' := set_discard s book
        { d1 with by_author := fun a =>
            if a = akey then (if s' = [] then none else some s') else d1.by_author a }
    let d3 : IndexDict :=
      match d2.by_year book.year with
      | none => d2
      | some s =>
        let s' := set_discard s book
        { d2 with by_year := fun y =>
            if y = book.year then (if s' = [] then none else some s') else d2.by_year y }
    (.ok book, d3)

/-- `IndexDict.get_by_author`: case-insensitive bucket lookup, an empty
result collection when the bucket is absent; never fails. -/
def IndexDict.get_by_author (d : IndexDict) (author : String) : BookCollection :=
  ⟨(d.by_author (str_lower author)).getD []⟩

/-- `IndexDict.get_by_year`: exact bucket lookup, an empty result
collection when absent; never fails. -/
def IndexDict.get_by_year (d : IndexDict) (y : Int) : BookCollection :=
  ⟨(d.by_year y).getD []⟩

/-- `IndexDict.rebuild`: clear all three mappings and re-add every book
of the supplied sequence in order. -/
def IndexDict.rebuild (books : List Book) : IndexDict :=
  books.foldl (fun d b => d.add b) IndexDict.empty

/-- The `Library` facade: one collection and one index. -/
structure Library where
  books : BookCollection
  indexes : IndexDict

/-- `Library(books)`: store the books and rebuild the index from them;
`Library()` is `Library.init []`. -/
def Library.init (books : List Book) : Library :=
  ⟨⟨books⟩, IndexDict.rebuild books⟩

/-- `Library.add_book`: append to the collection, then insert into the
index. -/
def Library.add_book (lib : Library) (b : Book) : Library :=
  ⟨lib.books.add b, lib.indexes.add b⟩

/-- `Library.remove_book`: remove from the collection by isbn, then from
the index.  A failure of the first step leaves the library unchanged; a
failure of the second step leaves the collection already mutated, as the
exception in the source propagates after `self.books.remove`. -/
def Library.remove_book (lib : Library) (isbn : String) :
    Except LibError Book × Library :=
  match lib.books.remove isbn with
  | .error e => (.error e, lib)
  | .ok (removed, books') =>
    match lib.indexes.remove isbn with
    | (.error e, d') => (.error e, ⟨books', d'⟩)
    | (.ok _, d') => (.ok removed, ⟨books', d'⟩)

/-- `Library.remove_random`: pop a random entry from the collection, then
remove its isbn from the index; on an empty collection the error
propagates with the library untouched. -/
def Library.remove_random (lib : Library) (rnd : Nat) :
    Except LibError Book × Library :=
  match lib.books.pop_random rnd with
  | .error e => (.error e, lib)
  | .ok (removed, books') =>
    match lib.indexes.remove removed.isbn with
    | (.error e, d') => (.error e, ⟨books', d'⟩)
    | (.ok _, d') => (.ok removed, ⟨books', d'⟩)

/-- `Library.refresh_indexes`: rebuild the index from the current
collection contents. -/
def Library.refresh_indexes (lib : Library) : Library :=
  ⟨lib.books, IndexDict.rebuild lib.books.books⟩

/-- `Library.get_by_isbn`: keyed index lookup; `KeyError`/`notFound` when
absent. -/
def Library.get_by_isbn (lib : Library) (isbn : String) : Except LibError Book :=
  match lib.indexes.by_isbn isbn with
  | some b => .ok b
  | none => .error .notFound

/-- `Library.find_by_author`: delegate to the index. -/
def Library.find_by_author (lib : Library) (author : String) : BookCollection :=
  lib.indexes.get_by_author author

/-- `Library.find_by_year`: delegate to the index. -/
def Library.find_by_year (lib : Library) (y : Int) : BookCollection :=
  lib.indexes.get_by_year y

/-! ## Operation traces

The mutating entry points of the facade, reified so that reachability
of a `Library` state by a sequence of operations can be stated.  An
operation that raises still transitions to the state the Python objects
are left in (for a failed first step that is the unchanged state). -/

/-- One mutating call on the `Library` facade.  `removeRandom` carries
the value produced by the injected random source. -/
inductive LibOp where
  | addBook (b : Book)
  | removeBook (isbn : String)
  | removeRandom (rnd : Nat)
  | refreshIndexes
deriving DecidableEq

/-- The state after one facade call (the returned value, if any, is
dropped; a raising call leaves the state it mutated up to the raise). -/
def apply_op (lib : Library) : LibOp → Library
  | .addBook b => lib.add_book b
  | .removeBook isbn => (lib.remove_book isbn).2
  | .removeRandom rnd => (lib.remove_random rnd).2
  | .refreshIndexes => lib.refresh_indexes

/-- The state after a sequence of facade calls. -/
def run_ops (lib : Library) (ops : List LibOp) : Library :=
  ops.foldl apply_op lib

/-- A sequence of facade calls in which every `addBook` supplies an isbn
not yet held by the collection at the moment of the call (the discipline
the simulator's collision loop enforces). -/
def fresh_ops : Library → List LibOp → Prop
  | _, [] => True
  | lib, op :: rest =>
    (match op with
     | .addBook b => lib.books.contains_isbn b.isbn = false
     | _ => True) ∧ fresh_ops (apply_op lib op) rest

/-- The synchronization invariant of the facade: the collection and the
`by_isbn` mapping hold exactly the same set of ids. -/
def sync_ids (lib : Library) : Prop :=
  ∀ k : String, lib.books.contains_isbn k = true ↔ (lib.indexes.by_isbn k).isSome = true

/-- One mutating call on a bare `IndexDict`. -/
inductive IdxOp where
  | add (b : Book)
  | remove (isbn : String)
  | rebuild (books : List Book)
deriving DecidableEq

/-- The index state after one call (a raising `remove` leaves the state
unchanged, as the failure happens before any mutation). -/
def apply_idx_op (d : IndexDict) : IdxOp → IndexDict
  | .add b => d.add b
  | .remove isbn => (d.remove isbn).2
  | .rebuild books => IndexDict.rebuild books

/-- The index state after a sequence of calls starting from a fresh
`IndexDict()`. -/
def run_idx_ops (ops : List IdxOp) : IndexDict :=
  ops.foldl apply_idx_op IndexDict.empty

/-- Reachable `IndexDict` states under the freshness discipline: `add`
only with an isbn not currently in `by_isbn`, `rebuild` only from book
sequences with pairwise distinct isbns; `remove` is unrestricted. -/
inductive ReachF : IndexDict → Prop where
  | empty : ReachF IndexDict.empty
  | add {d : IndexDict} {b : Book} (hd : ReachF d) (hfresh : d.by_isbn b.isbn = none) :
      ReachF (d.add b)
  | remove {d : IndexDict} (isbn : String) (hd : ReachF d) : ReachF (d.remove isbn).2
  | rebuild {books : List Book} (hnd : (books.map Book.isbn).Nodup) :
      ReachF (IndexDict.rebuild books)

/-- The book `b` is held by the index: `by_isbn` maps its id to it. -/
def IndexDict.holds (d : IndexDict) (b : Book) : Prop :=
  d.by_isbn b.isbn = some b

/-- Internal well-formedness of an `IndexDict`, the induction-friendly
strengthening of the bidirectional-consistency invariant: `by_isbn` keys
match the stored book's isbn; every indexed book sits in the author and
year buckets named by its own fields; every bucket is nonempty,
duplicate-free, registered under the right key, and mentions only books
the index holds. -/
structure Consistent (d : IndexDict) : Prop where
  keys_match : ∀ k b, d.by_isbn k = some b → b.isbn = k
  id_in_buckets : ∀ b, d.holds b →
    b ∈ d.author_bucket (str_lower b.author) ∧ b ∈ d.year_bucket b.year
  author_ok : ∀ a s, d.by_author a = some s →
    s ≠ [] ∧ s.Nodup ∧ ∀ b ∈ s, str_lower b.author = a ∧ d.holds b
  year_ok : ∀ y s, d.by_year y = some s →
    s ≠ [] ∧ s.Nodup ∧ ∀ b ∈ s, b.year = y ∧ d.holds b

/-! ## Concrete instances used by witnesses and counterexamples -/

/-- A sample book. -/
def b1 : Book := { title := "T1", author := "Alpha", year := 2000, genre := "novel", isbn := "isbn-1" }

/-- A second sample book with a distinct isbn. -/
def b2 : Book := { title := "T2", author := "Beta", year := 2001, genre := "crime", isbn := "isbn-2" }

/-- A book sharing `b1`'s isbn and author but differing as a record. -/
def b1t : Book := { title := "T3", author := "Alpha", year := 2000, genre := "novel", isbn := "isbn-1" }

/-- A book sharing `b1`'s isbn with a different author and year. -/
def b1g : Book := { title := "T4", author := "Gamma", year := 2002, genre := "saga", isbn := "isbn-1" }

/-! ## Spec-side definitions for the refinement comparison of C6 -/

/-- The concatenation C6 describes, written from the claim's words: A's
elements in A's original order, followed by those elements of B, in B's
order, whose id is not already present in A. -/
def concat_per_claim (c other : BookCollection) : BookCollection :=
  ⟨c.books ++ other.books.filter (fun b => !c.contains_isbn b.isbn)⟩

/-- The filtering `__add__` actually performs on the right operand: keep
an element only when its isbn is absent both from the left operand and
from the already-kept earlier elements of the right operand. -/
def dedup_against (acc : List Book) : List Book → List Book
  | [] => []
  | x :: rest =>
    if acc.any (fun y => y.isbn == x.isbn) then dedup_against acc rest
    else x :: dedup_against (acc ++ [x]) rest

/-- The facade invariant behind C1: the collection and `by_isbn` hold the
same ids, and the collection holds each id at most once. -/
def LInv (lib : Library) : Prop :=
  sync_ids lib ∧ (lib.books.books.map Book.isbn).Nodup

/-! ## Helper lemmas -/

/-- Membership after `set.add`. -/
lemma mem_set_add {s : List Book} {x y : Book} : y ∈ set_add s x ↔ y ∈ s ∨ y = x := by
  unfold set_add
  split
  · constructor
    · exact fun h => Or.inl h
    · rintro (h | rfl) <;> assumption
  · simp [List.mem_append]

/-! ## The claims -/

/-- C7: `refresh_indexes()` is idempotent — after calling it twice in a
row the index contents (all three mappings) equal the contents after one
call, `rebuild` being the clear-and-re-add pass over the collection in
sequence order; indeed the whole library state coincides. -/
theorem claim_c7_refresh_idempotent (lib : Library) :
    (lib.refresh_indexes.refresh_indexes).indexes = lib.refresh_indexes.indexes ∧
    lib.refresh_indexes.refresh_indexes = lib.refresh_indexes :=
  ⟨rfl, rfl⟩

/-- C9: popping a random book from an empty collection fails with the
empty-collection error, and `remove_random` on an empty library reports
that same error while leaving the library exactly as it was. -/
theorem claim_c9_empty_remove_random (rnd : Nat) (c : BookCollection) (lib : Library)
    (hc : c.books = []) (hlib : lib.books.books = []) :
    c.pop_random rnd = .error .emptyCollection ∧
    lib.remove_random rnd = (.error .emptyCollection, lib) := by
  constructor
  · simp [BookCollection.pop_random, hc]
  · simp [Library.remove_random, BookCollection.pop_random, hlib]

/-- C9 witness: the empty library built by `Library()`. -/
theorem claim_c9_witness :
    (⟨[]⟩ : BookCollection).books = [] ∧ (Library.init []).books.books = [] ∧
    ((⟨[]⟩ : BookCollection).pop_random 7 = .error .emptyCollection ∧
      (Library.init []).remove_random 7 = (.error .emptyCollection, Library.init [])) :=
  ⟨rfl, rfl, claim_c9_empty_remove_random 7 ⟨[]⟩ (Library.init []) rfl rfl⟩

/-- C10: removing an id absent from `by_isbn` fails with the keyed-lookup
`notFound` error and returns the index completely unchanged — all three
mappings identical to their values before the call. -/
theorem claim_c10_remove_missing_unchanged (d : IndexDict) (isbn : String)
    (h : d.by_isbn isbn = none) :
    d.remove isbn = (.error .notFound, d) := by
  simp [IndexDict.remove, h]

/-- C10 witness: a nonempty index queried for a missing id. -/
theorem claim_c10_witness :
    (IndexDict.empty.add b1).by_isbn "isbn-9" = none ∧
    (IndexDict.empty.add b1).remove "isbn-9" = (.error .notFound, IndexDict.empty.add b1) :=
  ⟨by decide, claim_c10_remove_missing_unchanged (IndexDict.empty.add b1) "isbn-9" (by decide)⟩

/-- C4: adding a book whose id is already bound to a different record
overwrites `by_isbn` (last-write-wins), places the new book in the
buckets for its author and year, and leaves the old record sitting in
its own author and year buckets — the buckets are not purged. -/
theorem claim_c4_duplicate_add_stale_buckets (d : IndexDict) (old_b new_b : Book)
    (hid : d.by_isbn new_b.isbn = some old_b)
    (ha : old_b ∈ d.author_bucket (str_lower old_b.author))
    (hy : old_b ∈ d.year_bucket old_b.year)
    (hne : old_b ≠ new_b) :
    (d.add new_b).by_isbn new_b.isbn = some new_b ∧
    new_b ∈ (d.add new_b).author_bucket (str_lower new_b.author) ∧
    new_b ∈ (d.add new_b).year_bucket new_b.year ∧
    old_b ∈ (d.add new_b).author_bucket (str_lower old_b.author) ∧
    old_b ∈ (d.add new_b).year_bucket old_b.year := by
  refine ⟨by simp [IndexDict.add], ?_, ?_, ?_, ?_⟩
  · simp [IndexDict.add, IndexDict.author_bucket, mem_set_add]
  · simp [IndexDict.add, IndexDict.year_bucket, mem_set_add]
  · by_cases hk : str_lower old_b.author = str_lower new_b.author
    · simp [IndexDict.add, IndexDict.author_bucket, hk, mem_set_add]
      exact Or.inl (by simpa [IndexDict.author_bucket, hk] using ha)
    · simpa [IndexDict.add, IndexDict.author_bucket, hk] using ha
  · by_cases hk : old_b.year = new_b.year
    · simp [IndexDict.add, IndexDict.year_bucket, hk, mem_set_add]
      exact Or.inl (by simpa [IndexDict.year_bucket, hk] using hy)
    · simpa [IndexDict.add, IndexDict.year_bucket, hk] using hy

/-- C4 witness: `b1g` overwrites `b1` (same isbn, different author and
year) in an index holding only `b1`. -/
theorem claim_c4_witness :
    (IndexDict.empty.add b1).by_isbn b1g.isbn = some b1 ∧
    b1 ∈ (IndexDict.empty.add b1).author_bucket (str_lower b1.author) ∧
    b1 ∈ (IndexDict.empty.add b1).year_bucket b1.year ∧
    b1 ≠ b1g ∧
    (((IndexDict.empty.add b1).add b1g).by_isbn b1g.isbn = some b1g ∧
      b1g ∈ ((IndexDict.empty.add b1).add b1g).author_bucket (str_lower b1g.author) ∧
      b1g ∈ ((IndexDict.empty.add b1).add b1g).year_bucket b1g.year ∧
      b1 ∈ ((IndexDict.empty.add b1).add b1g).author_bucket (str_lower b1.author) ∧
      b1 ∈ ((IndexDict.empty.add b1).add b1g).year_bucket b1.year) :=
  ⟨by decide, by decide, by decide, by decide,
    claim_c4_duplicate_add_stale_buckets (IndexDict.empty.add b1) b1 b1g
      (by decide) (by decide) (by decide) (by decide)⟩

/-- Unfolding of the `foldl` in `__add__` into `dedup_against`. -/
lemma concat_foldl_eq (other : List Book) : ∀ acc : List Book,
    (other.foldl
      (fun (combined : BookCollection) b =>
        if combined.contains_isbn b.isbn then combined else combined.add b)
      ⟨acc⟩) = ⟨acc ++ dedup_against acc other⟩ := by
  induction other with
  | nil => intro acc; simp [dedup_against]
  | cons x rest ih =>
    intro acc
    by_cases hx : (BookCollection.mk acc).contains_isbn x.isbn = true
    · have hx' : acc.any (fun y => y.isbn == x.isbn) = true := hx
      simp only [List.foldl_cons, hx, if_true, dedup_against, hx', ih]
    · have hx' : acc.any (fun y => y.isbn == x.isbn) = false := by
        simpa [BookCollection.contains_isbn] using hx
      rw [List.foldl_cons, if_neg hx,
        show (BookCollection.mk acc).add x = ⟨acc ++ [x]⟩ from rfl, ih (acc ++ [x])]
      simp [dedup_against, hx', List.append_assoc]

/-- `dedup_against` never keeps more elements than it is given. -/
lemma dedup_against_length (other : List Book) : ∀ acc : List Book,
    (dedup_against acc other).length ≤ other.length := by
  induction other with
  | nil => intro acc; simp [dedup_against]
  | cons x rest ih =>
    intro acc
    by_cases hx : acc.any (fun y => y.isbn == x.isbn) = true
    · simp only [dedup_against, hx, if_true]
      exact Nat.le_succ_of_le (ih acc)
    · simp only [dedup_against, hx, Bool.false_eq_true, if_false, List.length_cons]
      exact Nat.succ_le_succ (ih (acc ++ [x]))

/-- `dedup_against` only keeps elements of its input. -/
lemma dedup_against_subset (other : List Book) : ∀ acc x, x ∈ dedup_against acc other → x ∈ other := by
  induction other with
  | nil => intro acc x hx; simp [dedup_against] at hx
  | cons y rest ih =>
    intro acc x hx
    by_cases hy : acc.any (fun z => z.isbn == y.isbn) = true
    · simp only [dedup_against, hy, if_true] at hx
      exact List.mem_cons_of_mem _ (ih acc x hx)
    · simp only [dedup_against, hy, Bool.false_eq_true, if_false, List.mem_cons] at hx
      rcases hx with rfl | hx
      · exact List.mem_cons_self _ _
      · exact List.mem_cons_of_mem _ (ih (acc ++ [y]) x hx)

/-- C6 counterexample: when the right operand itself repeats an id that
the left operand lacks, `__add__` keeps only the first occurrence, while
the claim's description keeps every occurrence whose id is absent from
the left side. -/
theorem claim_c6_counterexample :
    (⟨[]⟩ : BookCollection).concat ⟨[b1, b1t]⟩ ≠ concat_per_claim ⟨[]⟩ ⟨[b1, b1t]⟩ := by
  decide

/-- C6 amended: `A.concat B` is A's elements in order followed by those
elements of B, in B's order, whose id is present neither in A nor among
the earlier elements of B already kept; consequently the length is at
most `len A + len B` and every id present in the result is present in A
or in B. -/
theorem claim_c6_concat_dedup (A B : BookCollection) :
    A.concat B = ⟨A.books ++ dedup_against A.books B.books⟩ ∧
    (A.concat B).books.length ≤ A.books.length + B.books.length ∧
    (∀ k : String, (A.concat B).contains_isbn k = true →
      A.contains_isbn k = true ∨ B.contains_isbn k = true) := by
  have heq : A.concat B = ⟨A.books ++ dedup_against A.books B.books⟩ :=
    concat_foldl_eq B.books A.books
  refine ⟨heq, ?_, ?_⟩
  · rw [heq]
    simpa using Nat.add_le_add_left (dedup_against_length B.books A.books) A.books.length
  · intro k hk
    rw [heq] at hk
    simp only [BookCollection.contains_isbn, List.any_append, Bool.or_eq_true] at hk
    rcases hk with hk | hk
    · exact Or.inl hk
    · right
      simp only [BookCollection.contains_isbn, List.any_eq_true] at hk ⊢
      obtain ⟨x, hx, hxk⟩ := hk
      exact ⟨x, dedup_against_subset B.books A.books x hx, hxk⟩

/-- C2 counterexample: adding `b1` to a library that already holds `b1`
leaves two collection entries with its id, so the exactly-once part of
the claim fails (the lookup part still holds). -/
theorem claim_c2_counterexample :
    ¬ ((((Library.init []).add_book b1).add_book b1).get_by_isbn b1.isbn = .ok b1 ∧
      ((((Library.init []).add_book b1).add_book b1).books.books.filter
        (fun x => x.isbn == b1.isbn)).length = 1) :=
  fun h => absurd h.2 (by decide)

/-- C2 amended: for every book `b` and every library whose collection
does not yet hold `b`'s id, immediately after `add_book b` the keyed
lookup returns `b` and a full collection scan finds exactly one entry
with its id. -/
theorem claim_c2_add_then_lookup (lib : Library) (b : Book)
    (hfresh : lib.books.contains_isbn b.isbn = false) :
    (lib.add_book b).get_by_isbn b.isbn = .ok b ∧
    ((lib.add_book b).books.books.filter (fun x => x.isbn == b.isbn)).length = 1 := by
  constructor
  · simp [Library.add_book, Library.get_by_isbn, IndexDict.add]
  · have hnone : lib.books.books.filter (fun x => x.isbn == b.isbn) = [] := by
      rw [List.filter_eq_nil]
      intro x hx
      intro hxb
      have : lib.books.contains_isbn b.isbn = true := by
        simp only [BookCollection.contains_isbn, List.any_eq_true]
        exact ⟨x, hx, hxb⟩
      rw [this] at hfresh
      exact Bool.noConfusion hfresh
    simp [Library.add_book, BookCollection.add, List.filter_append, hnone]

/-- C2 witness: a fresh isbn added to the empty library. -/
theorem claim_c2_witness :
    (Library.init []).books.contains_isbn b1.isbn = false ∧
    (((Library.init []).add_book b1).get_by_isbn b1.isbn = .ok b1 ∧
      ((((Library.init []).add_book b1)).books.books.filter
        (fun x => x.isbn == b1.isbn)).length = 1) :=
  ⟨rfl, claim_c2_add_then_lookup (Library.init []) b1 rfl⟩

/-- A failed scan means no entry carries the isbn. -/
lemma remove_first_eq_none {bs : List Book} {isbn : String} :
    remove_first bs isbn = none ↔ ∀ x ∈ bs, x.isbn ≠ isbn := by
  induction bs with
  | nil => simp [remove_first]
  | cons b rest ih =>
    rw [remove_first]
    by_cases hb : b.isbn = isbn
    · simp [hb]
    · rw [if_neg hb]
      cases hrec : remove_first rest isbn with
      | some p =>
        obtain ⟨r, rest'⟩ := p
        simp only [hrec]
        constructor
        · intro hcontra; exact Option.noConfusion hcontra
        · intro hall
          have hnone : remove_first rest isbn = none :=
            ih.mpr (fun x hx => hall x (List.mem_cons_of_mem _ hx))
          rw [hnone] at hrec
          exact Option.noConfusion hrec
      | none =>
        simp only [hrec]
        constructor
        · intro _ x hx
          rcases List.mem_cons.mp hx with rfl | hx'
          · exact hb
          · exact ih.mp hrec x hx'
        · intro _; trivial

/-- A successful scan splits the list at the first matching entry. -/
lemma remove_first_eq_some {bs : List Book} {isbn : String} {b : Book} {rest : List Book}
    (h : remove_first bs isbn = some (b, rest)) :
    b.isbn = isbn ∧ ∃ l1 l2, bs = l1 ++ b :: l2 ∧ rest = l1 ++ l2 ∧ ∀ x ∈ l1, x.isbn ≠ isbn := by
  induction bs generalizing b rest with
  | nil => exact Option.noConfusion h
  | cons hd tl ih =>
    rw [remove_first] at h
    by_cases hhd : hd.isbn = isbn
    · rw [if_pos hhd] at h
      cases h
      exact ⟨hhd, [], tl, rfl, rfl, by simp⟩
    · rw [if_neg hhd] at h
      cases hrec : remove_first tl isbn with
      | none => rw [hrec] at h; exact Option.noConfusion h
      | some p =>
        obtain ⟨r, rest'⟩ := p
        rw [hrec] at h
        cases h
        obtain ⟨hisbn, l1, l2, htl, hrest', hl1⟩ := ih hrec
        refine ⟨hisbn, hd :: l1, l2, by simp [htl], by simp [hrest'], ?_⟩
        intro x hx
        rcases List.mem_cons.mp hx with rfl | hx'
        · exact hhd
        · exact hl1 x hx'

/-- A successful scan permutes the list to the removed entry followed by
the remainder. -/
lemma remove_first_perm {bs : List Book} {isbn : String} {b : Book} {rest : List Book}
    (h : remove_first bs isbn = some (b, rest)) : bs.Perm (b :: rest) := by
  obtain ⟨-, l1, l2, rfl, rfl, -⟩ := remove_first_eq_some h
  exact List.perm_middle

/-- A successful `by_isbn` pop: the result is the stored book and the new
`by_isbn` is the old one with the key erased (the bucket passes do not
touch `by_isbn`). -/
lemma remove_of_mem {d : IndexDict} {book : Book} {isbn : String}
    (h : d.by_isbn isbn = some book) :
    (d.remove isbn).1 = .ok book ∧
    ∀ k, ((d.remove isbn).2).by_isbn k = if k = isbn then none else d.by_isbn k := by
  unfold IndexDict.remove
  rw [h]
  refine ⟨rfl, fun k => ?_⟩
  dsimp only
  split <;> split <;> rfl

/-- C3 counterexample: with an id held twice (reachable by two
`add_book` calls), `remove_book` succeeds yet the collection still
contains an entry with that id afterwards. -/
theorem claim_c3_counterexample :
    ((((Library.init []).add_book b1).add_book b1t).remove_book "isbn-1").1 = .ok b1 ∧
    (((((Library.init []).add_book b1).add_book b1t).remove_book "isbn-1").2).books.contains_isbn
      "isbn-1" = true :=
  ⟨rfl, by decide⟩

/-- C3 amended: for a library whose collection holds the id at most
once, after a successful `remove_book(id)` neither the collection nor
the index contains an entry with that id, a subsequent `get_by_isbn(id)`
fails with `notFound`, and a second `remove_book(id)` fails with
`notFound` leaving the state unchanged. -/
theorem claim_c3_remove_then_gone (lib : Library) (isbn : String) (rb : Book) (lib' : Library)
    (hcount : (lib.books.books.filter (fun x => x.isbn == isbn)).length ≤ 1)
    (hok : lib.remove_book isbn = (.ok rb, lib')) :
    lib'.books.contains_isbn isbn = false ∧
    lib'.indexes.by_isbn isbn = none ∧
    lib'.get_by_isbn isbn = .error .notFound ∧
    lib'.remove_book isbn = (.error .notFound, lib') := by
  cases hrf : remove_first lib.books.books isbn with
  | none =>
    simp only [Library.remove_book, BookCollection.remove, hrf] at hok
    exact absurd (congrArg Prod.fst hok) (by simp)
  | some p =>
    obtain ⟨b, rest⟩ := p
    simp only [Library.remove_book, BookCollection.remove, hrf] at hok
    cases hidx : lib.indexes.remove isbn with
    | mk r d' =>
      cases hbi : lib.indexes.by_isbn isbn with
      | none =>
        have : lib.indexes.remove isbn = (.error .notFound, lib.indexes) := by
          simp [IndexDict.remove, hbi]
        rw [this] at hok
        exact absurd (congrArg Prod.fst hok) (by simp)
      | some book =>
        obtain ⟨hr1, hr2⟩ := remove_of_mem hbi
        rw [hidx] at hr1 hr2
        dsimp only at hr1 hr2
        subst hr1
        rw [hidx] at hok
        dsimp only at hok
        have hlib' : lib' = ⟨⟨rest⟩, d'⟩ := (congrArg Prod.snd hok).symm
        obtain ⟨hbisbn, l1, l2, hbs, hrest, hl1⟩ := remove_first_eq_some hrf
        have hl2 : ∀ x ∈ l2, x.isbn ≠ isbn := by
          intro x hx hxisbn
          have hf1 : l1.filter (fun x => x.isbn == isbn) = [] := by
            rw [List.filter_eq_nil_iff]
            intro y hy
            simpa using hl1 y hy
          have hfl : (lib.books.books.filter (fun x => x.isbn == isbn)).length =
              1 + (l2.filter (fun x => x.isbn == isbn)).length := by
            rw [hbs, List.filter_append, hf1]
            simp [hbisbn, Nat.add_comm]
          rw [hfl] at hcount
          have hlen : (l2.filter (fun x => x.isbn == isbn)).length = 0 := by omega
          have hnil : l2.filter (fun x => x.isbn == isbn) = [] :=
            List.length_eq_zero.mp hlen
          have hxin : x ∈ l2.filter (fun x => x.isbn == isbn) :=
            List.mem_filter.mpr ⟨hx, by simpa using hxisbn⟩
          rw [hnil] at hxin
          exact List.not_mem_nil x hxin
        have hrest_none : ∀ x ∈ rest, x.isbn ≠ isbn := by
          intro x hx
          rw [hrest] at hx
          rcases List.mem_append.mp hx with hx' | hx'
          · exact hl1 x hx'
          · exact hl2 x hx'
        have hcontains : (⟨rest⟩ : BookCollection).contains_isbn isbn = false := by
          rw [Bool.eq_false_iff]
          intro hc
          simp only [BookCollection.contains_isbn, List.any_eq_true] at hc
          obtain ⟨x, hx, hxeq⟩ := hc
          exact hrest_none x hx (by simpa using hxeq)
        have hbynone : d'.by_isbn isbn = none := by
          have := hr2 isbn
          simpa using this
        subst hlib'
        refine ⟨hcontains, hbynone, ?_, ?_⟩
        · simp [Library.get_by_isbn, hbynone]
        · have hrf2 : remove_first rest isbn = none := remove_first_eq_none.mpr hrest_none
          simp [Library.remove_book, BookCollection.remove, hrf2]

/-- C3 witness: a singleton library loses its only entry. -/
theorem claim_c3_witness :
    ((((Library.init []).add_book b1).books.books.filter
      (fun x => x.isbn == "isbn-1")).length ≤ 1) ∧
    (((Library.init []).add_book b1).remove_book "isbn-1" =
      (.ok b1, (((Library.init []).add_book b1).remove_book "isbn-1").2)) ∧
    ((((Library.init []).add_book b1).remove_book "isbn-1").2.books.contains_isbn "isbn-1" = false ∧
      (((Library.init []).add_book b1).remove_book "isbn-1").2.indexes.by_isbn "isbn-1" = none ∧
      (((Library.init []).add_book b1).remove_book "isbn-1").2.get_by_isbn "isbn-1" =
        .error .notFound ∧
      (((Library.init []).add_book b1).remove_book "isbn-1").2.remove_book "isbn-1" =
        (.error .notFound, (((Library.init []).add_book b1).remove_book "isbn-1").2)) :=
  ⟨by decide, rfl,
    claim_c3_remove_then_gone ((Library.init []).add_book b1) "isbn-1" b1
      ((((Library.init []).add_book b1).remove_book "isbn-1").2) (by decide) rfl⟩

/-- Collection membership by id, phrased on the id list. -/
lemma contains_isbn_iff {c : BookCollection} {k : String} :
    c.contains_isbn k = true ↔ k ∈ c.books.map Book.isbn := by
  simp only [BookCollection.contains_isbn, List.any_eq_true, List.mem_map]
  constructor
  · rintro ⟨b, hb, hbk⟩
    exact ⟨b, hb, by simpa using hbk⟩
  · rintro ⟨b, hb, hbk⟩
    exact ⟨b, hb, by simpa using hbk⟩

/-- `by_isbn` keys after a fold of `add`s: the fold's books' ids union
the starting keys. -/
lemma foldl_add_isSome (bs : List Book) : ∀ (d : IndexDict) (k : String),
    ((bs.foldl (fun d b => d.add b) d).by_isbn k).isSome = true ↔
      (k ∈ bs.map Book.isbn ∨ (d.by_isbn k).isSome = true) := by
  induction bs with
  | nil => intro d k; simp
  | cons b tl ih =>
    intro d k
    rw [List.foldl_cons, ih]
    by_cases hk : k = b.isbn
    · subst hk
      simp [IndexDict.add]
    · simp [IndexDict.add, hk]

/-- `by_isbn` keys after `rebuild` are exactly the rebuilt books' ids. -/
lemma rebuild_isSome {bs : List Book} {k : String} :
    (((IndexDict.rebuild bs).by_isbn k)).isSome = true ↔ k ∈ bs.map Book.isbn := by
  rw [IndexDict.rebuild, foldl_add_isSome]
  simp [IndexDict.empty]

/-- Removing the entry at a valid position permutes the list to that
entry followed by the remainder. -/
lemma get_cons_eraseIdx_perm : ∀ (bs : List Book) (i : Nat) (h : i < bs.length),
    bs.Perm (bs.get ⟨i, h⟩ :: bs.eraseIdx i) := by
  intro bs
  induction bs with
  | nil => intro i h; simp at h
  | cons x tl ih =>
    intro i h
    cases i with
    | zero => simp [List.eraseIdx]
    | succ n =>
      have hn : n < tl.length := by simpa using h
      show (x :: tl).Perm (tl.get ⟨n, hn⟩ :: x :: tl.eraseIdx n)
      exact ((ih n hn).cons x).trans (List.Perm.swap _ _ _)

/-- Core removal step: taking one entry out of the collection and its id
out of the index preserves the facade invariant. -/
lemma linv_remove_core {lib : Library} {book : Book} {rest : List Book}
    (hinv : LInv lib) (hperm : lib.books.books.Perm (book :: rest)) :
    LInv ⟨⟨rest⟩, (lib.indexes.remove book.isbn).2⟩ := by
  obtain ⟨hsync, hnd⟩ := hinv
  have hpm : (lib.books.books.map Book.isbn).Perm (book.isbn :: rest.map Book.isbn) :=
    hperm.map Book.isbn
  have hnd' : (book.isbn :: rest.map Book.isbn).Nodup := hpm.nodup_iff.mp hnd
  have hbk_mem : book.isbn ∈ lib.books.books.map Book.isbn :=
    hpm.mem_iff.mpr (List.mem_cons_self _ _)
  have hsome : (lib.indexes.by_isbn book.isbn).isSome = true :=
    (hsync book.isbn).mp (contains_isbn_iff.mpr hbk_mem)
  obtain ⟨bk, hbk⟩ := Option.isSome_iff_exists.mp hsome
  obtain ⟨-, hr2⟩ := remove_of_mem hbk
  constructor
  · intro k
    rw [hr2 k, contains_isbn_iff]
    by_cases hk : k = book.isbn
    · subst hk
      simp only [if_pos rfl]
      constructor
      · intro hmem
        exact absurd hmem ((List.nodup_cons.mp hnd').1)
      · intro hfalse
        exact Bool.noConfusion hfalse
    · rw [if_neg hk]
      have : k ∈ rest.map Book.isbn ↔ k ∈ lib.books.books.map Book.isbn := by
        rw [hpm.mem_iff, List.mem_cons]
        constructor
        · exact fun h => Or.inr h
        · rintro (rfl | h)
          · exact absurd rfl hk
          · exact h
      rw [this, ← contains_isbn_iff]
      exact hsync k
  · exact (List.nodup_cons.mp hnd').2

/-- `add_book` with a fresh id preserves the facade invariant. -/
lemma linv_add_book {lib : Library} {b : Book} (hinv : LInv lib)
    (hfresh : lib.books.contains_isbn b.isbn = false) :
    LInv (lib.add_book b) := by
  obtain ⟨hsync, hnd⟩ := hinv
  have hnotmem : b.isbn ∉ lib.books.books.map Book.isbn := by
    intro hmem
    rw [contains_isbn_iff.mpr hmem] at hfresh
    exact Bool.noConfusion hfresh
  constructor
  · intro k
    have hmap : (lib.add_book b).books.books.map Book.isbn
        = lib.books.books.map Book.isbn ++ [b.isbn] := by
      simp [Library.add_book, BookCollection.add]
    rw [contains_isbn_iff, hmap]
    by_cases hk : k = b.isbn
    · subst hk
      simp [Library.add_book, IndexDict.add]
    · simp only [List.mem_append, List.mem_singleton, hk, or_false]
      rw [← contains_isbn_iff]
      have : ((lib.add_book b).indexes.by_isbn k).isSome
          = (lib.indexes.by_isbn k).isSome := by
        simp [Library.add_book, IndexDict.add, hk]
      rw [this]
      exact hsync k
  · have hmap : (lib.add_book b).books.books.map Book.isbn
        = lib.books.books.map Book.isbn ++ [b.isbn] := by
      simp [Library.add_book, BookCollection.add]
    rw [hmap]
    have hp : (lib.books.books.map Book.isbn ++ [b.isbn]).Perm
        (b.isbn :: lib.books.books.map Book.isbn) := List.perm_append_comm
    rw [hp.nodup_iff]
    exact List.nodup_cons.mpr ⟨hnotmem, hnd⟩

/-- `remove_book` (on any id, hit or miss) preserves the facade
invariant. -/
lemma linv_remove_book {lib : Library} (isbn : String) (hinv : LInv lib) :
    LInv (lib.remove_book isbn).2 := by
  cases hrf : remove_first lib.books.books isbn with
  | none =>
    have : (lib.remove_book isbn).2 = lib := by
      simp [Library.remove_book, BookCollection.remove, hrf]
    rw [this]
    exact hinv
  | some p =>
    obtain ⟨b, rest⟩ := p
    have hb : b.isbn = isbn := (remove_first_eq_some hrf).1
    have hsnd : (lib.remove_book isbn).2 = ⟨⟨rest⟩, (lib.indexes.remove isbn).2⟩ := by
      rw [Library.remove_book, BookCollection.remove, hrf]
      cases hidx : lib.indexes.remove isbn with
      | mk r d' => cases r <;> rfl
    rw [hsnd, ← hb]
    exact linv_remove_core hinv (remove_first_perm hrf)

/-- `remove_random` preserves the facade invariant. -/
lemma linv_remove_random {lib : Library} (rnd : Nat) (hinv : LInv lib) :
    LInv (lib.remove_random rnd).2 := by
  by_cases hlen : lib.books.books.length = 0
  · have : (lib.remove_random rnd).2 = lib := by
      rw [Library.remove_random, BookCollection.pop_random, dif_pos hlen]
    rw [this]
    exact hinv
  · have hlt : rnd % lib.books.books.length < lib.books.books.length :=
      Nat.mod_lt _ (Nat.pos_of_ne_zero hlen)
    have hpop : lib.books.pop_random rnd =
        .ok (lib.books.books.get ⟨rnd % lib.books.books.length, hlt⟩,
          ⟨lib.books.books.eraseIdx (rnd % lib.books.books.length)⟩) := by
      rw [BookCollection.pop_random, dif_neg hlen]
    have hsnd : (lib.remove_random rnd).2 =
        ⟨⟨lib.books.books.eraseIdx (rnd % lib.books.books.length)⟩,
          (lib.indexes.remove
            (lib.books.books.get ⟨rnd % lib.books.books.length, hlt⟩).isbn).2⟩ := by
      rw [Library.remove_random, hpop]
      dsimp only
      cases hidx : lib.indexes.remove
          (lib.books.books.get ⟨rnd % lib.books.books.length, hlt⟩).isbn with
      | mk r d' => cases r <;> rfl
    rw [hsnd]
    exact linv_remove_core hinv (get_cons_eraseIdx_perm _ _ hlt)

/-- `refresh_indexes` restores/preserves the facade invariant. -/
lemma linv_refresh {lib : Library} (hinv : LInv lib) : LInv lib.refresh_indexes := by
  refine ⟨?_, hinv.2⟩
  intro k
  show lib.books.contains_isbn k = true ↔ _
  rw [contains_isbn_iff]
  exact (@rebuild_isSome lib.books.books k).symm

/-- The empty `Library()` satisfies the facade invariant. -/
lemma linv_init : LInv (Library.init []) := by
  constructor
  · intro k
    simp [Library.init, BookCollection.contains_isbn, IndexDict.rebuild, IndexDict.empty]
  · simp [Library.init]

/-- One facade call under the freshness discipline preserves the facade
invariant. -/
lemma linv_apply_op {lib : Library} {op : LibOp} (hinv : LInv lib)
    (hok : match op with
      | .addBook b => lib.books.contains_isbn b.isbn = false
      | _ => True) :
    LInv (apply_op lib op) := by
  cases op with
  | addBook b => exact linv_add_book hinv hok
  | removeBook isbn => exact linv_remove_book isbn hinv
  | removeRandom rnd => exact linv_remove_random rnd hinv
  | refreshIndexes => exact linv_refresh hinv

/-- Running a fresh trace preserves the facade invariant. -/
lemma run_ops_linv : ∀ (ops : List LibOp) (lib : Library),
    LInv lib → fresh_ops lib ops → LInv (run_ops lib ops) := by
  intro ops
  induction ops with
  | nil => intro lib hinv _; exact hinv
  | cons op rest ih =>
    intro lib hinv hfresh
    exact ih (apply_op lib op) (linv_apply_op hinv hfresh.1) hfresh.2

/-- C1 counterexample: two `add_book`s with the same id followed by one
`remove_book` leave an id in the collection that the index no longer
holds, so the invariant fails on an unrestricted operation sequence. -/
theorem claim_c1_counterexample :
    ¬ sync_ids (run_ops (Library.init [])
      [.addBook b1, .addBook b1t, .removeBook "isbn-1"]) := by
  intro h
  have h1 := (h "isbn-1").mp (by decide)
  exact absurd h1 (by decide)

/-- C1 amended: for every Library state reachable from the empty library
by a sequence of `add_book`, `remove_book`, `remove_random` and
`refresh_indexes` calls in which `add_book` is only invoked with an id
not currently in the collection, the set of ids in the collection equals
the set of ids in the index's `by_isbn` mapping — each such operation
preserves the equality (every prefix of such a trace is such a trace). -/
theorem claim_c1_sync_ids (ops : List LibOp)
    (hfresh : fresh_ops (Library.init []) ops) :
    sync_ids (run_ops (Library.init []) ops) :=
  (run_ops_linv ops (Library.init []) linv_init hfresh).1

/-- C1 witness: a two-operation fresh trace. -/
theorem claim_c1_witness :
    fresh_ops (Library.init []) [.addBook b1, .removeBook "isbn-1"] ∧
    sync_ids (run_ops (Library.init []) [.addBook b1, .removeBook "isbn-1"]) :=
  ⟨⟨by decide, trivial, trivial⟩,
    claim_c1_sync_ids [.addBook b1, .removeBook "isbn-1"] ⟨by decide, trivial, trivial⟩⟩

/-- `set.add` never produces an empty bucket. -/
lemma set_add_ne_nil {s : List Book} {b : Book} : set_add s b ≠ [] := by
  unfold set_add
  split
  · intro hnil
    subst hnil
    simp_all
  · simp

/-- `set.add` keeps a bucket duplicate-free. -/
lemma set_add_nodup {s : List Book} {b : Book} (h : s.Nodup) : (set_add s b).Nodup := by
  unfold set_add
  split
  · exact h
  · rename_i hnot
    have : (b :: s).Nodup := List.nodup_cons.mpr ⟨hnot, h⟩
    exact List.perm_append_comm.nodup_iff.mpr this

/-- A fresh `IndexDict()` is internally consistent. -/
lemma consistent_empty : Consistent IndexDict.empty := by
  constructor <;> intro x hx <;> first
    | exact Option.noConfusion hx
    | (intro h; exact Option.noConfusion h)

/-- The author bucket of `d.add b`. -/
lemma author_bucket_add (d : IndexDict) (b : Book) (key : String) :
    (d.add b).author_bucket key =
      if key = str_lower b.author then set_add (d.author_bucket key) b
      else d.author_bucket key := by
  rw [IndexDict.author_bucket, IndexDict.add]
  dsimp only
  split <;> rfl

/-- The year bucket of `d.add b`. -/
lemma year_bucket_add (d : IndexDict) (b : Book) (y : Int) :
    (d.add b).year_bucket y =
      if y = b.year then set_add (d.year_bucket y) b else d.year_bucket y := by
  rw [IndexDict.year_bucket, IndexDict.add]
  dsimp only
  split <;> rfl

/-- Bucket membership is monotone under `add` (author side). -/
lemma mem_author_bucket_add {d : IndexDict} {x : Book} {key : String} (b : Book)
    (hx : x ∈ d.author_bucket key) : x ∈ (d.add b).author_bucket key := by
  rw [author_bucket_add]
  split
  · exact mem_set_add.mpr (Or.inl hx)
  · exact hx

/-- Bucket membership is monotone under `add` (year side). -/
lemma mem_year_bucket_add {d : IndexDict} {x : Book} {y : Int} (b : Book)
    (hx : x ∈ d.year_bucket y) : x ∈ (d.add b).year_bucket y := by
  rw [year_bucket_add]
  split
  · exact mem_set_add.mpr (Or.inl hx)
  · exact hx

/-- Adding a book with an id the index does not yet hold keeps the index
internally consistent. -/
lemma consistent_add {d : IndexDict} {b : Book} (hc : Consistent d)
    (hfresh : d.by_isbn b.isbn = none) : Consistent (d.add b) := by
  have hnotheld : ∀ x : Book, d.holds x → x.isbn ≠ b.isbn := by
    intro x hx heq
    rw [IndexDict.holds, heq, hfresh] at hx
    exact Option.noConfusion hx
  have hholds_pres : ∀ x : Book, d.holds x → (d.add b).holds x := by
    intro x hx
    show (d.add b).by_isbn x.isbn = some x
    simp only [IndexDict.add]
    rw [if_neg (hnotheld x hx)]
    exact hx
  have hholds_b : (d.add b).holds b := by
    show (d.add b).by_isbn b.isbn = some b
    simp [IndexDict.add]
  constructor
  · -- keys_match
    intro k x hk
    simp only [IndexDict.add] at hk
    by_cases hkb : k = b.isbn
    · rw [if_pos hkb] at hk
      cases hk
      exact hkb.symm
    · rw [if_neg hkb] at hk
      exact hc.keys_match k x hk
  · -- id_in_buckets
    intro x hx
    rw [IndexDict.holds] at hx
    simp only [IndexDict.add] at hx
    by_cases hxb : x.isbn = b.isbn
    · rw [if_pos hxb] at hx
      cases hx
      constructor
      · rw [author_bucket_add, if_pos rfl]
        exact mem_set_add.mpr (Or.inr rfl)
      · rw [year_bucket_add, if_pos rfl]
        exact mem_set_add.mpr (Or.inr rfl)
    · rw [if_neg hxb] at hx
      obtain ⟨ha, hy⟩ := hc.id_in_buckets x hx
      exact ⟨mem_author_bucket_add b ha, mem_year_bucket_add b hy⟩
  · -- author_ok
    intro a s hs
    simp only [IndexDict.add] at hs
    by_cases hk : a = str_lower b.author
    · rw [if_pos hk] at hs
      cases hs
      have hnd0 : (d.author_bucket a).Nodup := by
        cases hba : d.by_author a with
        | none => simp [IndexDict.author_bucket, hba]
        | some s0 =>
          rw [IndexDict.author_bucket, hba]
          exact (hc.author_ok a s0 hba).2.1
      refine ⟨set_add_ne_nil, set_add_nodup hnd0, ?_⟩
      intro x hx
      rcases mem_set_add.mp hx with hx' | rfl
      · cases hba : d.by_author a with
        | none =>
          rw [IndexDict.author_bucket, hba] at hx'
          exact absurd hx' (List.not_mem_nil x)
        | some s0 =>
          rw [IndexDict.author_bucket, hba] at hx'
          obtain ⟨hax, hholdx⟩ := (hc.author_ok a s0 hba).2.2 x hx'
          exact ⟨hax, hholds_pres x hholdx⟩
      · exact ⟨hk.symm, hholds_b⟩
    · rw [if_neg hk] at hs
      obtain ⟨hne, hnd, hmem⟩ := hc.author_ok a s hs
      refine ⟨hne, hnd, fun x hx => ?_⟩
      obtain ⟨hax, hholdx⟩ := hmem x hx
      exact ⟨hax, hholds_pres x hholdx⟩
  · -- year_ok
    intro y s hs
    simp only [IndexDict.add] at hs
    by_cases hk : y = b.year
    · rw [if_pos hk] at hs
      cases hs
      have hnd0 : (d.year_bucket y).Nodup := by
        cases hby : d.by_year y with
        | none => simp [IndexDict.year_bucket, hby]
        | some s0 =>
          rw [IndexDict.year_bucket, hby]
          exact (hc.year_ok y s0 hby).2.1
      refine ⟨set_add_ne_nil, set_add_nodup hnd0, ?_⟩
      intro x hx
      rcases mem_set_add.mp hx with hx' | rfl
      · cases hby : d.by_year y with
        | none =>
          rw [IndexDict.year_bucket, hby] at hx'
          exact absurd hx' (List.not_mem_nil x)
        | some s0 =>
          rw [IndexDict.year_bucket, hby] at hx'
          obtain ⟨hyx, hholdx⟩ := (hc.year_ok y s0 hby).2.2 x hx'
          exact ⟨hyx, hholds_pres x hholdx⟩
      · exact ⟨hk.symm, hholds_b⟩
    · rw [if_neg hk] at hs
      obtain ⟨hne, hnd, hmem⟩ := hc.year_ok y s hs
      refine ⟨hne, hnd, fun x hx => ?_⟩
      obtain ⟨hyx, hholdx⟩ := hmem x hx
      exact ⟨hyx, hholds_pres x hholdx⟩

/-- `by_author` after a successful `remove`: the removed book's bucket
loses the book (and is popped when that empties it); other keys are
untouched. -/
lemma remove_by_author_some {d : IndexDict} {book : Book} {isbn : String} {sA : List Book}
    (hbi : d.by_isbn isbn = some book)
    (hba : d.by_author (str_lower book.author) = some sA) :
    ∀ a, ((d.remove isbn).2).by_author a =
      if a = str_lower book.author then
        (if set_discard sA book = [] then none else some (set_discard sA book))
      else d.by_author a := by
  intro a
  unfold IndexDict.remove
  rw [hbi]
  dsimp only
  rw [hba]
  dsimp only
  split <;> rfl

/-- `by_year` after a successful `remove`, when the removed book's year
bucket exists. -/
lemma remove_by_year_some {d : IndexDict} {book : Book} {isbn : String} {sY : List Book}
    (hbi : d.by_isbn isbn = some book)
    (hy : d.by_year book.year = some sY) :
    ∀ y, ((d.remove isbn).2).by_year y =
      if y = book.year then
        (if set_discard sY book = [] then none else some (set_discard sY book))
      else d.by_year y := by
  intro y
  unfold IndexDict.remove
  rw [hbi]
  dsimp only
  cases hba2 : d.by_author (str_lower book.author) <;>
    (dsimp only; rw [hy])

/-- `remove` keeps the index internally consistent. -/
lemma consistent_remove {d : IndexDict} (isbn : String) (hc : Consistent d) :
    Consistent (d.remove isbn).2 := by
  cases hbi : d.by_isbn isbn with
  | none =>
    have hsame : (d.remove isbn).2 = d := by simp [IndexDict.remove, hbi]
    rw [hsame]
    exact hc
  | some book =>
    have hkm : book.isbn = isbn := hc.keys_match isbn book hbi
    have hholds_book : d.holds book := by rw [IndexDict.holds, hkm]; exact hbi
    obtain ⟨hmemA, hmemY⟩ := hc.id_in_buckets book hholds_book
    rw [IndexDict.author_bucket] at hmemA
    rw [IndexDict.year_bucket] at hmemY
    cases hba : d.by_author (str_lower book.author) with
    | none => rw [hba] at hmemA; exact absurd hmemA (List.not_mem_nil _)
    | some sA =>
    cases hy : d.by_year book.year with
    | none => rw [hy] at hmemY; exact absurd hmemY (List.not_mem_nil _)
    | some sY =>
    rw [hba] at hmemA
    rw [hy] at hmemY
    simp only [Option.getD_some] at hmemA hmemY
    obtain ⟨-, h2⟩ := remove_of_mem hbi
    have hA := remove_by_author_some hbi hba
    have hY := remove_by_year_some hbi hy
    have hndA : sA.Nodup := (hc.author_ok _ sA hba).2.1
    have hndY : sY.Nodup := (hc.year_ok _ sY hy).2.1
    have hAmem := (hc.author_ok _ sA hba).2.2
    have hYmem := (hc.year_ok _ sY hy).2.2
    have hholds' : ∀ x : Book, ((d.remove isbn).2).holds x ↔ (x ≠ book ∧ d.holds x) := by
      intro x
      rw [IndexDict.holds, h2 x.isbn]
      constructor
      · intro hx
        by_cases hxk : x.isbn = isbn
        · rw [if_pos hxk] at hx; exact Option.noConfusion hx
        · rw [if_neg hxk] at hx
          refine ⟨?_, hx⟩
          intro hxb
          subst hxb
          exact hxk hkm
      · rintro ⟨hxb, hx⟩
        have hxk : x.isbn ≠ isbn := by
          intro hxk
          rw [IndexDict.holds, hxk, hbi] at hx
          exact hxb (Option.some.inj hx).symm
        rw [if_neg hxk]
        exact hx
    constructor
    · -- keys_match
      intro k x hk
      rw [h2 k] at hk
      by_cases hkk : k = isbn
      · rw [if_pos hkk] at hk; exact Option.noConfusion hk
      · rw [if_neg hkk] at hk; exact hc.keys_match k x hk
    · -- id_in_buckets
      intro x hx
      obtain ⟨hxb, hdx⟩ := (hholds' x).mp hx
      obtain ⟨ha, hy2⟩ := hc.id_in_buckets x hdx
      constructor
      · rw [IndexDict.author_bucket, hA]
        by_cases hk : str_lower x.author = str_lower book.author
        · rw [if_pos hk]
          rw [IndexDict.author_bucket, hk, hba, Option.getD_some] at ha
          have hxin : x ∈ set_discard sA book :=
            (hndA.mem_erase_iff).mpr ⟨hxb, ha⟩
          rw [if_neg (List.ne_nil_of_mem hxin)]
          exact hxin
        · rw [if_neg hk]
          rw [IndexDict.author_bucket] at ha
          exact ha
      · rw [IndexDict.year_bucket, hY]
        by_cases hk : x.year = book.year
        · rw [if_pos hk]
          rw [IndexDict.year_bucket, hk, hy, Option.getD_some] at hy2
          have hxin : x ∈ set_discard sY book :=
            (hndY.mem_erase_iff).mpr ⟨hxb, hy2⟩
          rw [if_neg (List.ne_nil_of_mem hxin)]
          exact hxin
        · rw [if_neg hk]
          rw [IndexDict.year_bucket] at hy2
          exact hy2
    · -- author_ok
      intro a s hs
      rw [hA a] at hs
      by_cases hk : a = str_lower book.author
      · rw [if_pos hk] at hs
        by_cases hnil : set_discard sA book = []
        · rw [if_pos hnil] at hs; exact Option.noConfusion hs
        · rw [if_neg hnil] at hs
          cases hs
          refine ⟨hnil, hndA.erase book, ?_⟩
          intro x hx
          obtain ⟨hxb, hxin⟩ := (hndA.mem_erase_iff).mp hx
          obtain ⟨hax, hholdx⟩ := hAmem x hxin
          exact ⟨hk ▸ hax, (hholds' x).mpr ⟨hxb, hholdx⟩⟩
      · rw [if_neg hk] at hs
        obtain ⟨hne, hnd, hmem⟩ := hc.author_ok a s hs
        refine ⟨hne, hnd, fun x hx => ?_⟩
        obtain ⟨hax, hholdx⟩ := hmem x hx
        have hxb : x ≠ book := by
          intro hxb
          subst hxb
          exact hk hax.symm
        exact ⟨hax, (hholds' x).mpr ⟨hxb, hholdx⟩⟩
    · -- year_ok
      intro y s hs
      rw [hY y] at hs
      by_cases hk : y = book.year
      · rw [if_pos hk] at hs
        by_cases hnil : set_discard sY book = []
        · rw [if_pos hnil] at hs; exact Option.noConfusion hs
        · rw [if_neg hnil] at hs
          cases hs
          refine ⟨hnil, hndY.erase book, ?_⟩
          intro x hx
          obtain ⟨hxb, hxin⟩ := (hndY.mem_erase_iff).mp hx
          obtain ⟨hyx, hholdx⟩ := hYmem x hxin
          exact ⟨hk ▸ hyx, (hholds' x).mpr ⟨hxb, hholdx⟩⟩
      · rw [if_neg hk] at hs
        obtain ⟨hne, hnd, hmem⟩ := hc.year_ok y s hs
        refine ⟨hne, hnd, fun x hx => ?_⟩
        obtain ⟨hyx, hholdx⟩ := hmem x hx
        have hxb : x ≠ book := by
          intro hxb
          subst hxb
          exact hk hyx.symm
        exact ⟨hyx, (hholds' x).mpr ⟨hxb, hholdx⟩⟩

/-- `by_isbn` after `add`, as an unfolding lemma. -/
lemma by_isbn_add (d : IndexDict) (b : Book) (k : String) :
    (d.add b).by_isbn k = if k = b.isbn then some b else d.by_isbn k := rfl

/-- Folding `add` over books with pairwise fresh, mutually distinct ids
keeps the index internally consistent. -/
lemma consistent_foldl_add : ∀ (bs : List Book) (d : IndexDict), Consistent d →
    (∀ x ∈ bs, d.by_isbn x.isbn = none) → (bs.map Book.isbn).Nodup →
    Consistent (bs.foldl (fun d b => d.add b) d) := by
  intro bs
  induction bs with
  | nil => intro d hc _ _; exact hc
  | cons b tl ih =>
    intro d hc hfresh hnd
    rw [List.foldl_cons]
    have hfb : d.by_isbn b.isbn = none := hfresh b (List.mem_cons_self _ _)
    rw [List.map_cons] at hnd
    have hnd' := List.nodup_cons.mp hnd
    apply ih (d.add b) (consistent_add hc hfb)
    · intro x hx
      have hxb : x.isbn ≠ b.isbn := by
        intro he
        exact hnd'.1 (he ▸ List.mem_map_of_mem Book.isbn hx)
      rw [by_isbn_add, if_neg hxb]
      exact hfresh x (List.mem_cons_of_mem _ hx)
    · exact hnd'.2

/-- `rebuild` from books with pairwise distinct ids yields a consistent
index. -/
lemma consistent_rebuild {bs : List Book} (hnd : (bs.map Book.isbn).Nodup) :
    Consistent (IndexDict.rebuild bs) :=
  consistent_foldl_add bs IndexDict.empty consistent_empty (fun _ _ => rfl) hnd

/-- Every index state reachable under the freshness discipline is
internally consistent. -/
lemma reach_consistent {d : IndexDict} (h : ReachF d) : Consistent d := by
  induction h with
  | empty => exact consistent_empty
  | add hd hfresh ih => exact consistent_add ih hfresh
  | remove isbn hd ih => exact consistent_remove isbn ih
  | rebuild hnd => exact consistent_rebuild hnd

/-- In the duplicate-id two-add state, `by_isbn` nowhere holds the first
record. -/
lemma dup_state_by_isbn_ne (k : String) :
    (run_idx_ops [.add b1, .add b1g]).by_isbn k ≠ some b1 := by
  intro hk
  by_cases hkk : k = "isbn-1"
  · subst hkk
    have hval : (run_idx_ops [.add b1, .add b1g]).by_isbn "isbn-1" = some b1g := by decide
    rw [hval] at hk
    exact absurd (Option.some.inj hk) (by decide)
  · have h1 : k ≠ b1g.isbn := by simpa [b1g] using hkk
    have h2 : k ≠ b1.isbn := by simpa [b1] using hkk
    have hnone : (run_idx_ops [.add b1, .add b1g]).by_isbn k = none := by
      show ((IndexDict.empty.add b1).add b1g).by_isbn k = none
      rw [by_isbn_add, by_isbn_add, if_neg h1, if_neg h2]
      rfl
    rw [hnone] at hk
    exact Option.noConfusion hk

/-- C5 counterexample: after `add b1; add b1g` (same id, reachable by an
unrestricted operation sequence from an empty index), `b1` sits in both
its author bucket and its year bucket yet is no longer present in
`by_id`, refuting the bidirectional-consistency claim as stated. -/
theorem claim_c5_counterexample :
    ¬ ((∀ b : Book, (∃ k, (run_idx_ops [.add b1, .add b1g]).by_isbn k = some b) ↔
        (b ∈ (run_idx_ops [.add b1, .add b1g]).author_bucket (str_lower b.author) ∧
          b ∈ (run_idx_ops [.add b1, .add b1g]).year_bucket b.year)) ∧
      (∀ a s, (run_idx_ops [.add b1, .add b1g]).by_author a = some s → s ≠ []) ∧
      (∀ y s, (run_idx_ops [.add b1, .add b1g]).by_year y = some s → s ≠ [])) := by
  intro h
  obtain ⟨k, hk⟩ := (h.1 b1).mpr ⟨by decide, by decide⟩
  exact dup_state_by_isbn_ne k hk

/-- C5 amended: for every IndexDict state reachable from an empty index
by `add`s whose id is not yet indexed, arbitrary `remove`s, and
`rebuild`s from sequences with pairwise distinct ids, a book is present
in `by_id` iff it appears in the `by_author` bucket for its lowercased
author and in the `by_year` bucket for its year, and no bucket is
empty. -/
theorem claim_c5_bidirectional (d : IndexDict) (h : ReachF d) :
    (∀ b : Book, (∃ k, d.by_isbn k = some b) ↔
      (b ∈ d.author_bucket (str_lower b.author) ∧ b ∈ d.year_bucket b.year)) ∧
    (∀ a s, d.by_author a = some s → s ≠ []) ∧
    (∀ y s, d.by_year y = some s → s ≠ []) := by
  have hc : Consistent d := reach_consistent h
  refine ⟨?_, ?_, ?_⟩
  · intro b
    constructor
    · rintro ⟨k, hk⟩
      have hbk : b.isbn = k := hc.keys_match k b hk
      have hholds : d.holds b := by rw [IndexDict.holds, hbk]; exact hk
      exact hc.id_in_buckets b hholds
    · rintro ⟨hA, hY⟩
      rw [IndexDict.author_bucket] at hA
      cases hba : d.by_author (str_lower b.author) with
      | none => rw [hba] at hA; exact absurd hA (List.not_mem_nil b)
      | some s =>
        rw [hba, Option.getD_some] at hA
        exact ⟨b.isbn, ((hc.author_ok _ s hba).2.2 b hA).2⟩
  · intro a s hs
    exact (hc.author_ok a s hs).1
  · intro y s hs
    exact (hc.year_ok y s hs).1

/-- C5 witness: the singleton index reached by one fresh `add`. -/
theorem claim_c5_witness :
    ReachF (IndexDict.empty.add b1) ∧
    (b1 ∈ (IndexDict.empty.add b1).author_bucket (str_lower b1.author) ∧
      b1 ∈ (IndexDict.empty.add b1).year_bucket b1.year) :=
  ⟨ReachF.add ReachF.empty rfl,
    ((claim_c5_bidirectional _ (ReachF.add ReachF.empty rfl)).1 b1).mp ⟨"isbn-1", by decide⟩⟩

/-- C8 counterexample: in the duplicate-id two-add state (reachable by
unrestricted operations), `get_by_author` returns the stale record `b1`,
which is not held by `by_id`, so the lookup does not return exactly the
indexed books whose author matches. -/
theorem claim_c8_counterexample :
    ¬ (∀ (a : String) (b : Book),
      b ∈ ((run_idx_ops [.add b1, .add b1g]).get_by_author a).books ↔
        ((∃ k, (run_idx_ops [.add b1, .add b1g]).by_isbn k = some b) ∧
          str_lower b.author = str_lower a)) := by
  intro h
  obtain ⟨⟨k, hk⟩, -⟩ := (h "Alpha" b1).mp (by decide)
  exact dup_state_by_isbn_ne k hk

/-- C8 amended: for every IndexDict state reachable under the freshness
discipline, every author query string and every year, `get_by_author`
returns exactly the indexed books whose author equals the query
case-insensitively (so a book added under any casing answers a query in
any other casing), and `get_by_year` returns exactly the indexed books
with that year; both are total functions, returning the empty collection
when nothing matches, never an error. -/
theorem claim_c8_get_by_author_exact (d : IndexDict) (h : ReachF d) (a : String) (y : Int) :
    (∀ b : Book, b ∈ (d.get_by_author a).books ↔
      ((∃ k, d.by_isbn k = some b) ∧ str_lower b.author = str_lower a)) ∧
    (∀ b : Book, b ∈ (d.get_by_year y).books ↔
      ((∃ k, d.by_isbn k = some b) ∧ b.year = y)) := by
  have hc : Consistent d := reach_consistent h
  constructor
  · intro b
    rw [IndexDict.get_by_author]
    dsimp only
    constructor
    · intro hb
      cases hba : d.by_author (str_lower a) with
      | none => rw [hba] at hb; exact absurd hb (List.not_mem_nil b)
      | some s =>
        rw [hba, Option.getD_some] at hb
        obtain ⟨hax, hholdx⟩ := (hc.author_ok _ s hba).2.2 b hb
        exact ⟨⟨b.isbn, hholdx⟩, hax⟩
    · rintro ⟨⟨k, hk⟩, hax⟩
      have hbk : b.isbn = k := hc.keys_match k b hk
      have hholds : d.holds b := by rw [IndexDict.holds, hbk]; exact hk
      have hmem := (hc.id_in_buckets b hholds).1
      rw [IndexDict.author_bucket, hax] at hmem
      exact hmem
  · intro b
    rw [IndexDict.get_by_year]
    dsimp only
    constructor
    · intro hb
      cases hby : d.by_year y with
      | none => rw [hby] at hb; exact absurd hb (List.not_mem_nil b)
      | some s =>
        rw [hby, Option.getD_some] at hb
        obtain ⟨hyx, hholdx⟩ := (hc.year_ok _ s hby).2.2 b hb
        exact ⟨⟨b.isbn, hholdx⟩, hyx⟩
    · rintro ⟨⟨k, hk⟩, hyy⟩
      have hbk : b.isbn = k := hc.keys_match k b hk
      have hholds : d.holds b := by rw [IndexDict.holds, hbk]; exact hk
      have hmem := (hc.id_in_buckets b hholds).2
      rw [IndexDict.year_bucket, hyy] at hmem
      exact hmem

/-- C8 witness: `b1` is added with author `Alpha` and found by the
differently-cased query `aLPHA`. -/
theorem claim_c8_witness :
    ReachF (IndexDict.empty.add b1) ∧
    b1 ∈ ((IndexDict.empty.add b1).get_by_author "aLPHA").books :=
  ⟨ReachF.add ReachF.empty rfl,
    (((claim_c8_get_by_author_exact _ (ReachF.add ReachF.empty rfl) "aLPHA" 0).1 b1)).mpr
      ⟨⟨"isbn-1", by decide⟩, by decide⟩⟩
